import Mathlib

/-!
Verification of the TeleWaves filtering/download core against its code.

The Python sources (telewaves/service.py, telewaves/configuration.py,
telewaves/constants.py) are shallowly embedded: strings are `String`,
Python sets of strings are `Finset String`, dynamically typed values that
can be a string or an integer are `PyVal`, exceptions are `Except`,
filesystem side effects are explicit effect lists or input sets of
existing file names.  Character-level operations (`str.lower`,
`str.strip`, `int(...)`) are modelled on the basic latin range, which
covers every value the program manipulates (chat handles, file
extensions, decimal digits).
-/

set_option maxHeartbeats 1000000

namespace Telewaves

/-! ### Python string primitives -/

/-- One character of CPython `str.lower`, on the basic latin range
(the same range Lean core `Char.toLower` handles). -/
def pyCharLower (c : Char) : Char :=
  if 65 ≤ c.toNat ∧ c.toNat ≤ 90 then Char.ofNat (c.toNat + 32) else c

/-- Python `str.lower`. -/
def py_lower (s : String) : String := ⟨s.data.map pyCharLower⟩

/-- Fuel-driven decimal rendering; `natDigits` supplies enough fuel, so
the fuel-exhaustion branch is never taken. -/
def natDigitsGo (fuel n : Nat) : List Char :=
  match fuel with
  | 0 => [Char.ofNat (48 + n)]
  | fuel + 1 =>
    if n < 10 then [Char.ofNat (48 + n)]
    else natDigitsGo fuel (n / 10) ++ [Char.ofNat (48 + n % 10)]

/-- Decimal rendering of a natural number, as CPython `str` renders
nonnegative integers. -/
def natDigits (n : Nat) : List Char := natDigitsGo n n

/-- Python `str` on a natural number. -/
def py_str_nat (n : Nat) : String := ⟨natDigits n⟩

/-- Python `str` on an `int`. -/
def py_str_int (n : Int) : String :=
  if n < 0 then "-" ++ py_str_nat n.natAbs else py_str_nat n.natAbs

/-- Python `str.strip(chars)`: drop characters satisfying `p` from both
ends (`List.rdropWhile` drops from the right). -/
def py_strip (p : Char → Bool) (l : List Char) : List Char :=
  (l.dropWhile p).rdropWhile p

/-- ASCII whitespace, as stripped by Python `str.strip()` with no
arguments and by `int(...)` before parsing. -/
def py_whitespace (c : Char) : Bool :=
  c = ' ' || c = '\t' || c = '\n' || c = '\r' || c = '\x0b' || c = '\x0c'

def is_ascii_digit (c : Char) : Bool := decide (48 ≤ c.toNat ∧ c.toNat ≤ 57)

def py_digit_val (c : Char) : Nat := c.toNat - 48

/-- Digit-run parser of CPython `int(str)`: after the first digit,
single underscores are allowed between digits. -/
def py_int_digits_go (acc : Nat) : List Char → Option Nat
  | [] => some acc
  | '_' :: c :: rest =>
    if is_ascii_digit c then py_int_digits_go (acc * 10 + py_digit_val c) rest
    else Option.none
  | ['_'] => Option.none
  | c :: rest =>
    if is_ascii_digit c then py_int_digits_go (acc * 10 + py_digit_val c) rest
    else Option.none

def py_int_from_digits : List Char → Option Nat
  | [] => Option.none
  | c :: rest =>
    if is_ascii_digit c then py_int_digits_go (py_digit_val c) rest
    else Option.none

/-- CPython `int(str)` in base 10: optional surrounding whitespace,
optional sign, then decimal digits with underscore separators. -/
def py_parse_int (s : String) : Option Int :=
  match py_strip py_whitespace s.data with
  | '+' :: rest => (py_int_from_digits rest).map Int.ofNat
  | '-' :: rest => (py_int_from_digits rest).map (fun n => -(n : Int))
  | rest => (py_int_from_digits rest).map Int.ofNat

/-! ### pathlib stem and suffix -/

/-- Python `str.rfind`, restricted to a single character. -/
def rfind_char (l : List Char) (c : Char) : Option Nat :=
  (l.reverse.findIdx? (fun x => x = c)).map (fun j => l.length - 1 - j)

/-- `pathlib.PurePath.stem` and `.suffix` of a file name: split at the
last dot when it is neither the first nor the last character. -/
def path_split_name (name : List Char) : List Char × List Char :=
  match rfind_char name '.' with
  | some i =>
    if 0 < i ∧ i < name.length - 1 then (name.take i, name.drop i)
    else (name, [])
  | Option.none => (name, [])

def path_stem (s : String) : String := ⟨(path_split_name s.data).1⟩

def path_suffix (s : String) : String := ⟨(path_split_name s.data).2⟩

/-! ### constants.py: extension presets -/

def audio_extensions : Finset String :=
  {".mp3", ".flac", ".m4a", ".ogg", ".wav", ".aac", ".wma", ".aiff", ".ape"}

def video_extensions : Finset String :=
  {".mp4", ".avi", ".mkv", ".mov", ".wmv", ".flv", ".webm", ".m4v"}

def image_extensions : Finset String :=
  {".jpg", ".jpeg", ".png", ".gif", ".bmp", ".tiff", ".webp", ".svg"}

def document_extensions : Finset String :=
  {".pdf", ".doc", ".docx", ".txt", ".rtf", ".odt", ".pages"}

def archive_extensions : Finset String :=
  {".zip", ".rar", ".7z", ".tar", ".gz", ".bz2", ".xz"}

/-- `EXTENSION_PRESETS` as a lookup: `dict.get` on the preset table. -/
def EXTENSION_PRESETS (name : String) : Option (Finset String) :=
  if name = "audio" then some audio_extensions
  else if name = "video" then some video_extensions
  else if name = "image" then some image_extensions
  else if name = "document" then some document_extensions
  else if name = "archive" then some archive_extensions
  else Option.none

def preset_names : List String := ["audio", "video", "image", "document", "archive"]

/-! ### service.py: TeleWaves.__init__ extension resolution -/

/-- One iteration of the loop in `TeleWaves.__init__` building
`self.allowed_extensions`: if `EXTENSION_PRESETS.get(ext)` is truthy
(present and nonempty) union it in, otherwise add the token itself. -/
def resolve_step (acc : Finset String) (ext : String) : Finset String :=
  match EXTENSION_PRESETS ext with
  | some exts => if exts ≠ ∅ then acc ∪ exts else insert ext acc
  | Option.none => insert ext acc

/-- The loop in `TeleWaves.__init__` building `self.allowed_extensions`. -/
def resolve_allowed_extensions (extensions_filter : List String) : Finset String :=
  extensions_filter.foldl resolve_step ∅

/-! ### service.py: dynamically typed values -/

/-- A Python value that the embedded code can branch on dynamically:
`_user_info` returns a string, an integer, or `None`. -/
inductive PyVal where
  | str (s : String)
  | int (n : Int)
  | none
deriving DecidableEq

inductive PyError where
  | attributeError
deriving DecidableEq

/-- Python truthiness for the values above. -/
def py_truthy : PyVal → Bool
  | PyVal.str s => decide (s ≠ "")
  | PyVal.int n => decide (n ≠ 0)
  | PyVal.none => false

/-! ### service.py: Telegram objects -/

structure TgUser where
  username : Option String
  id : Int

/-- A document attribute, reduced to its optional `file_name` field
(`Option.none` covers attributes without that field and a `None` value). -/
structure TgDocument where
  attributes : List (Option String)
  id : Int
  mime_type : Option String

inductive TgMedia where
  | document (doc : TgDocument)
  | other

structure TgMessage where
  chat_id : Int
  sender : Option TgUser
  media : Option TgMedia

/-- `TeleWaves._user_info`: `"@" + username` when the user has a truthy
username, otherwise the numeric `user.id` itself. -/
def user_info (user : Option TgUser) : PyVal :=
  match user with
  | Option.none => PyVal.none
  | some u =>
    match u.username with
    | some handle => if handle ≠ "" then PyVal.str ("@" ++ handle) else PyVal.int u.id
    | Option.none => PyVal.int u.id

/-- `TeleWaves._should_process_chat`.  An unset (`None`) chat filter and
an empty one are both falsy, hence both are the `∅` case.  A non-string
`user_info` that is truthy reaches `user_info.lower()` and raises
`AttributeError`. -/
def should_process_chat (chat_filter : Finset String) (chat_id : Int)
    (user_info : PyVal) : Except PyError Bool :=
  if chat_filter = ∅ then Except.ok true
  else if py_str_int chat_id ∈ chat_filter then Except.ok true
  else
    if py_truthy user_info then
      match user_info with
      | PyVal.str s =>
        let lowered := py_lower s
        Except.ok (decide (lowered ∈ chat_filter ∨ "@" ++ py_lower lowered ∈ chat_filter))
      | _ => Except.error PyError.attributeError
    else Except.ok false

/-! ### service.py: extension check and filename sanitizer -/

/-- `TeleWaves._should_download_file`. -/
def should_download_file (allowed_extensions : Finset String) (file_path : String) : Bool :=
  if allowed_extensions = ∅ then true
  else decide (py_lower (path_suffix file_path) ∈ allowed_extensions)

/-- Whether a string contains an uppercase ASCII character. -/
def has_upper (s : String) : Bool :=
  s.data.any (fun c => decide (65 ≤ c.toNat ∧ c.toNat ≤ 90))

def invalid_chars : List Char := ['<', '>', ':', '"', '/', '\\', '|', '?', '*']

/-- Python `str.replace(c, "_")` for a single character `c`. -/
def py_replace_char (s : List Char) (c : Char) : List Char :=
  s.map (fun x => if x = c then '_' else x)

/-- The replacement loop of `sanitize_filename`. -/
def remove_invalid (s : List Char) : List Char :=
  invalid_chars.foldl py_replace_char s

def strip_space_dot : Char → Bool := fun c => c = ' ' || c = '.'

/-- `TeleWaves.sanitize_filename`. -/
def sanitize_filename (filename : String) : String :=
  let replaced := remove_invalid filename.data
  let stripped := py_strip strip_space_dot replaced
  if stripped = [] then "untitled" else ⟨stripped⟩

/-! ### service.py: collision resolution and download -/

/-- The candidate name `f"{stem}_{counter}{suffix}"`. -/
def path_candidate (stem sfx : String) (n : Nat) : String :=
  stem ++ "_" ++ py_str_nat n ++ sfx

/-- The `while file_path.exists()` loop of `download_media_file`,
with explicit fuel (the loop always terminates because the directory is
finite; `download_target` supplies enough fuel). -/
def resolve_loop (existing : Finset String) (stem sfx : String) :
    Nat → Nat → String → Option String
  | 0, _, _ => Option.none
  | fuel + 1, counter, cur =>
    if cur ∈ existing then
      resolve_loop existing stem sfx fuel (counter + 1) (path_candidate stem sfx counter)
    else some cur

/-- The collision-resolved target path chosen by `download_media_file`,
given the set of file names already existing in the download directory. -/
def download_target (existing : Finset String) (safe_filename : String) : Option String :=
  resolve_loop existing (path_stem safe_filename) (path_suffix safe_filename)
    (existing.card + 2) 1 safe_filename

/-- `TeleWaves.download_media_file`: sanitize, resolve collisions, ask
the external client to transfer bytes.  `download_result` is the path
the external client reports back (`None` on failure); exceptions inside
the transfer are caught and also yield `None`. -/
def download_media_file (existing : Finset String) (download_result : Option String)
    (original_filename : String) : Option String :=
  let safe_filename := sanitize_filename original_filename
  match download_target existing safe_filename with
  | some _ =>
    match download_result with
    | some downloaded_path => some downloaded_path
    | Option.none => Option.none
  | Option.none => Option.none

/-! ### service.py: message processing -/

/-- The fixed MIME-type-to-extension table inside `process_message`. -/
def mime_to_ext (mime : String) : Option String :=
  if mime = "audio/mpeg" then some ".mp3"
  else if mime = "audio/mp4" then some ".m4a"
  else if mime = "audio/flac" then some ".flac"
  else if mime = "audio/ogg" then some ".ogg"
  else if mime = "audio/wav" then some ".wav"
  else if mime = "video/mp4" then some ".mp4"
  else Option.none

/-- `next((attr.file_name for attr in attributes if hasattr(attr, "file_name")
and attr.file_name), None)`: the first attribute with a truthy file name. -/
def find_declared_filename (attributes : List (Option String)) : Option String :=
  attributes.findSome? (fun attr =>
    match attr with
    | some name => if name ≠ "" then some name else Option.none
    | Option.none => Option.none)

/-- The filename derivation for a document in `process_message`: the
declared name if any, else `document_<id>` plus an extension looked up
from the MIME type (appended only when the lookup is nonempty). -/
def derive_document_filename (attributes : List (Option String)) (doc_id : Int)
    (mime_type : Option String) : String :=
  match find_declared_filename attributes with
  | some name => name
  | Option.none =>
    let base := "document_" ++ py_str_int doc_id
    match mime_type with
    | some mime =>
      if mime ≠ "" then
        let ext := (mime_to_ext mime).getD ""
        if ext ≠ "" then base ++ ext else base
      else base
    | Option.none => base

/-- `TeleWaves.process_message`.  The chat-filter check runs before the
`try` block; only the download phase is wrapped in `try/except`, so an
exception from `should_process_chat` propagates as `Except.error`.
`downloaded_exists` models `downloaded_path.exists()` after transfer. -/
def process_message (chat_filter allowed_extensions existing : Finset String)
    (download_result : Option String) (downloaded_exists : Bool)
    (message : Option TgMessage) : Except PyError Unit :=
  match message with
  | Option.none => Except.ok ()
  | some msg =>
    match msg.media with
    | Option.none => Except.ok ()
    | some media =>
      let sender_info := user_info msg.sender
      match should_process_chat chat_filter msg.chat_id sender_info with
      | Except.error e => Except.error e
      | Except.ok b =>
        if b then
          match media with
          | TgMedia.other => Except.ok ()
          | TgMedia.document doc =>
            let filename := derive_document_filename doc.attributes doc.id doc.mime_type
            if filename ≠ "" then
              if should_download_file allowed_extensions filename then
                match download_media_file existing download_result filename with
                | some downloaded_path =>
                  if downloaded_exists then
                    if should_download_file allowed_extensions downloaded_path then
                      Except.ok ()
                    else Except.ok ()
                  else Except.ok ()
                | Option.none => Except.ok ()
              else Except.ok ()
            else Except.ok ()
        else Except.ok ()

/-! ### configuration.py -/

/-- Environment: a partial map from variable names to values. -/
def Env : Type := String → Option String

/-- Filesystem side effects performed by `load_configuration`. -/
inductive FileEffect where
  | mkdir (path : String)
deriving DecidableEq

structure Configuration where
  telegram_api_id : Int
  telegram_api_hash : String
  download_dir : String
  data_dir : String
  session_dir : String
  chat_filter : Finset String
  extensions_filter : Finset String

/-- `_parse_comma_separated_entities`: split on commas, strip whitespace,
drop falsy entries, lowercase, collect into a set. -/
def parse_comma_separated_entities (string_collection : String) : Finset String :=
  if string_collection = "" then ∅
  else
    (((string_collection.split (fun c => c = ',')).filter
        (fun e => decide (py_strip py_whitespace e.data ≠ [])))
      |>.map (fun e => py_lower ⟨py_strip py_whitespace e.data⟩)).toFinset

/-- `load_configuration`: the pair of filesystem effects performed and
the outcome, where `Except.error code` models `sys.exit(code)`. -/
def load_configuration (env : Env) : List FileEffect × Except Nat Configuration :=
  let api_id_str := (env "TELEGRAM_API_ID").getD ""
  let api_hash := (env "TELEGRAM_API_HASH").getD ""
  if api_id_str = "" ∨ api_hash = "" then ([], Except.error 1)
  else
    match py_parse_int api_id_str with
    | Option.none => ([], Except.error 1)
    | some api_id =>
      let chat_filter := (env "CHAT_FILTER").getD ""
      let extensions_filter := (env "EXTENSIONS_FILTER").getD ""
      let data_dir := (env "DATA_DIR").getD "/data"
      let session_dir := data_dir ++ "/" ++ (env "SESSION_NAME").getD "telegram"
      let download_dir := (env "DOWNLOAD_DIR").getD "/library"
      ([FileEffect.mkdir data_dir, FileEffect.mkdir download_dir],
        Except.ok
          { telegram_api_id := api_id
            telegram_api_hash := api_hash
            download_dir := download_dir
            data_dir := data_dir
            session_dir := session_dir
            chat_filter := parse_comma_separated_entities chat_filter
            extensions_filter := parse_comma_separated_entities extensions_filter })

/-! ## Theorems -/

/-! ### Character-level lemmas -/

theorem char_toNat_ofNat_valid (n : Nat) (h : n < 0xd800) : (Char.ofNat n).toNat = n := by
  rw [Char.ofNat, dif_pos (Or.inl h)]
  simp [Char.ofNatAux, Char.toNat, UInt32.toNat]

theorem pyCharLower_toNat (c : Char) :
    (pyCharLower c).toNat =
      if 65 ≤ c.toNat ∧ c.toNat ≤ 90 then c.toNat + 32 else c.toNat := by
  unfold pyCharLower
  split_ifs with h
  · exact char_toNat_ofNat_valid _ (by omega)
  · rfl

theorem pyCharLower_not_upper (c : Char) :
    ¬(65 ≤ (pyCharLower c).toNat ∧ (pyCharLower c).toNat ≤ 90) := by
  rw [pyCharLower_toNat]
  split_ifs with h <;> omega

theorem pyCharLower_of_not_upper {c : Char} (h : ¬(65 ≤ c.toNat ∧ c.toNat ≤ 90)) :
    pyCharLower c = c := by
  unfold pyCharLower
  exact if_neg h

theorem pyCharLower_idem (c : Char) : pyCharLower (pyCharLower c) = pyCharLower c :=
  pyCharLower_of_not_upper (pyCharLower_not_upper c)

theorem map_pyCharLower_idem (l : List Char) :
    (l.map pyCharLower).map pyCharLower = l.map pyCharLower := by
  induction l with
  | nil => rfl
  | cons a t ih => simp [ih, pyCharLower_idem]

theorem py_lower_idem (s : String) : py_lower (py_lower s) = py_lower s := by
  cases s
  unfold py_lower
  exact congrArg String.mk (map_pyCharLower_idem _)

/-! ### Decimal rendering lemmas -/

theorem natDigitsGo_congr : ∀ f1 f2 n : Nat, n ≤ f1 → n ≤ f2 →
    natDigitsGo f1 n = natDigitsGo f2 n := by
  intro f1
  induction f1 with
  | zero =>
    intro f2 n h1 _
    have hn : n = 0 := by omega
    subst hn
    cases f2 with
    | zero => rfl
    | succ g =>
      rw [natDigitsGo, natDigitsGo, if_pos (by omega)]
  | succ f ih =>
    intro f2 n h1 h2
    cases f2 with
    | zero =>
      have hn : n = 0 := by omega
      subst hn
      rw [natDigitsGo, natDigitsGo, if_pos (by omega)]
    | succ g =>
      rw [natDigitsGo, natDigitsGo]
      by_cases hn : n < 10
      · rw [if_pos hn, if_pos hn]
      · rw [if_neg hn, if_neg hn]
        have hdiv : n / 10 < n := Nat.div_lt_self (by omega) (by omega)
        rw [ih g (n / 10) (by omega) (by omega)]

theorem natDigits_eq (n : Nat) :
    natDigits n =
      if n < 10 then [Char.ofNat (48 + n)]
      else natDigits (n / 10) ++ [Char.ofNat (48 + n % 10)] := by
  unfold natDigits
  cases n with
  | zero => rw [natDigitsGo, if_pos (by omega)]
  | succ m =>
    rw [natDigitsGo]
    by_cases hm : m + 1 < 10
    · rw [if_pos hm, if_pos hm]
    · rw [if_neg hm, if_neg hm]
      have hdiv : (m + 1) / 10 < m + 1 := Nat.div_lt_self (by omega) (by omega)
      rw [natDigitsGo_congr m ((m + 1) / 10) ((m + 1) / 10) (by omega) (by omega)]

theorem natDigits_ne_nil (n : Nat) : natDigits n ≠ [] := by
  rw [natDigits_eq]
  split_ifs <;> simp

theorem digit_char_inj {a b : Nat} (ha : a < 10) (hb : b < 10)
    (h : Char.ofNat (48 + a) = Char.ofNat (48 + b)) : a = b := by
  have h2 := congrArg Char.toNat h
  rw [char_toNat_ofNat_valid (48 + a) (by omega),
      char_toNat_ofNat_valid (48 + b) (by omega)] at h2
  omega

theorem natDigits_inj (m : Nat) : ∀ n, natDigits m = natDigits n → m = n := by
  induction m using Nat.strong_induction_on with
  | _ m ih =>
    intro n h
    rw [natDigits_eq m, natDigits_eq n] at h
    split_ifs at h with h1 h2 h2
    · simp only [List.cons.injEq, and_true] at h
      exact digit_char_inj h1 h2 h
    · have hlen := congrArg List.length h
      have hne := natDigits_ne_nil (n / 10)
      rw [List.length_append] at hlen
      simp only [List.length_singleton] at hlen
      have h0 : (natDigits (n / 10)).length = 0 := by omega
      exact absurd (List.length_eq_zero.mp h0) hne
    · have hlen := congrArg List.length h
      have hne := natDigits_ne_nil (m / 10)
      rw [List.length_append] at hlen
      simp only [List.length_singleton] at hlen
      have h0 : (natDigits (m / 10)).length = 0 := by omega
      exact absurd (List.length_eq_zero.mp h0) hne
    · have hrev := congrArg List.reverse h
      simp only [List.reverse_append, List.reverse_cons, List.reverse_nil,
        List.nil_append, List.singleton_append, List.cons.injEq] at hrev
      obtain ⟨hlast, hrest⟩ := hrev
      have hmod : m % 10 = n % 10 :=
        digit_char_inj (Nat.mod_lt _ (by omega)) (Nat.mod_lt _ (by omega)) hlast
      have hdiv : m / 10 = n / 10 := by
        apply ih (m / 10) (Nat.div_lt_self (by omega) (by omega))
        have := congrArg List.reverse hrest
        simpa using this
      omega

/-! ### Chat filter (C1) -/

/-- Claim C1: for every chat filter set `S`, chat id `c` and sender
handle-or-id `u` (a handle is a nonempty string), `_should_process_chat`
returns true iff `S` is empty, or `str(c)` is in `S`, or the handle
lowercased is in `S` with or without a leading `"@"`; moreover on such
inputs it always returns a boolean rather than raising. -/
theorem should_process_chat_spec (S : Finset String) (c : Int) (u : Option String)
    (hu : ∀ s, u = some s → s ≠ "") :
    (should_process_chat S c
        (match u with | some s => PyVal.str s | Option.none => PyVal.none) =
          Except.ok true ↔
      S = ∅ ∨ py_str_int c ∈ S ∨
        ∃ h, u = some h ∧ (py_lower h ∈ S ∨ "@" ++ py_lower h ∈ S)) ∧
    ∃ b, should_process_chat S c
        (match u with | some s => PyVal.str s | Option.none => PyVal.none) =
          Except.ok b := by
  cases u with
  | none =>
    unfold should_process_chat
    split_ifs with h1 h2 h3 <;>
      simp_all [py_truthy]
  | some s =>
    have hs : s ≠ "" := hu s rfl
    unfold should_process_chat
    have htr : py_truthy (PyVal.str s) = true := by simp [py_truthy, hs]
    split_ifs with h1 h2 h3 <;>
      simp_all [py_truthy, py_lower_idem]

theorem should_process_chat_spec_witness :
    (∀ s, (some "Alice" : Option String) = some s → s ≠ "") ∧
    ((should_process_chat {"@alice"} 1
        (match (some "Alice" : Option String) with
          | some s => PyVal.str s | Option.none => PyVal.none) =
          Except.ok true ↔
      ({"@alice"} : Finset String) = ∅ ∨ py_str_int 1 ∈ ({"@alice"} : Finset String) ∨
        ∃ h, (some "Alice" : Option String) = some h ∧
          (py_lower h ∈ ({"@alice"} : Finset String) ∨
            "@" ++ py_lower h ∈ ({"@alice"} : Finset String))) ∧
    ∃ b, should_process_chat {"@alice"} 1
        (match (some "Alice" : Option String) with
          | some s => PyVal.str s | Option.none => PyVal.none) =
          Except.ok b) :=
  ⟨fun s h => by cases h; decide,
    should_process_chat_spec {"@alice"} 1 (some "Alice")
      (fun s h => by cases h; decide)⟩

/-! ### Extension resolver (C3, C8) -/

theorem EXTENSION_PRESETS_nonempty (t : String) (E : Finset String)
    (h : EXTENSION_PRESETS t = some E) : E ≠ ∅ := by
  unfold EXTENSION_PRESETS at h
  split_ifs at h <;> (cases h <;> decide)

theorem mem_resolve_step (acc : Finset String) (t x : String) :
    x ∈ resolve_step acc t ↔
      x ∈ acc ∨ (∃ E, EXTENSION_PRESETS t = some E ∧ x ∈ E) ∨
        (EXTENSION_PRESETS t = Option.none ∧ x = t) := by
  unfold resolve_step
  split
  · rename_i E hp
    have hne := EXTENSION_PRESETS_nonempty t E hp
    rw [hp, if_pos hne, Finset.mem_union]
    constructor
    · rintro (h | h)
      · exact Or.inl h
      · exact Or.inr (Or.inl ⟨E, rfl, h⟩)
    · rintro (h | ⟨E2, hE2, hx⟩ | ⟨hE2, _⟩)
      · exact Or.inl h
      · cases hE2; exact Or.inr hx
      · cases hE2
  · rename_i hp
    rw [hp, Finset.mem_insert]
    constructor
    · rintro (rfl | h)
      · exact Or.inr (Or.inr ⟨rfl, rfl⟩)
      · exact Or.inl h
    · rintro (h | ⟨E, hE, _⟩ | ⟨_, rfl⟩)
      · exact Or.inr h
      · cases hE
      · exact Or.inl rfl

theorem mem_resolve_foldl (l : List String) (acc : Finset String) (x : String) :
    x ∈ l.foldl resolve_step acc ↔
      x ∈ acc ∨ ∃ t ∈ l, ((∃ E, EXTENSION_PRESETS t = some E ∧ x ∈ E) ∨
        (EXTENSION_PRESETS t = Option.none ∧ x = t)) := by
  induction l generalizing acc with
  | nil => simp
  | cons a tl ih =>
    simp only [List.foldl_cons]
    rw [ih, mem_resolve_step]
    constructor
    · rintro ((h | h) | ⟨t, ht, h⟩)
      · exact Or.inl h
      · exact Or.inr ⟨a, List.mem_cons_self a tl, h⟩
      · exact Or.inr ⟨t, List.mem_cons_of_mem a ht, h⟩
    · rintro (h | ⟨t, ht, h⟩)
      · exact Or.inl (Or.inl h)
      · rcases List.mem_cons.mp ht with rfl | ht2
        · exact Or.inl (Or.inr h)
        · exact Or.inr ⟨t, ht2, h⟩

/-- Claim C3: every token matching a preset name contributes exactly that
preset extension set, and every other token (including unrecognized
preset-shaped tokens) is added verbatim; the resolver is total, so no
error is raised for unknown tokens. -/
theorem resolve_allowed_extensions_spec (tokens : List String) (x : String) :
    x ∈ resolve_allowed_extensions tokens ↔
      (∃ t ∈ tokens, ∃ E, EXTENSION_PRESETS t = some E ∧ x ∈ E) ∨
      (∃ t ∈ tokens, EXTENSION_PRESETS t = Option.none ∧ x = t) := by
  unfold resolve_allowed_extensions
  rw [mem_resolve_foldl]
  simp only [Finset.not_mem_empty, false_or, and_or_left, exists_or]

theorem preset_sets_no_names :
    ∀ t E, EXTENSION_PRESETS t = some E → ∀ y ∈ E, y ∉ preset_names := by
  intro t E h
  unfold EXTENSION_PRESETS at h
  split_ifs at h <;> (cases h <;> decide)

theorem preset_names_have_presets :
    ∀ t ∈ preset_names, EXTENSION_PRESETS t ≠ Option.none := by decide

/-- Claim C8: the allowed-extension set built at construction never
contains a preset name — preset-name tokens are replaced by their
concrete suffixes, and surviving literal tokens are never preset names. -/
theorem allowed_extensions_no_preset_names (tokens : List String) (x : String)
    (hx : x ∈ resolve_allowed_extensions tokens) : x ∉ preset_names := by
  unfold resolve_allowed_extensions at hx
  rw [mem_resolve_foldl] at hx
  rcases hx with h | ⟨t, _, ⟨E, hE, hxE⟩ | ⟨hnone, rfl⟩⟩
  · exact absurd h (Finset.not_mem_empty x)
  · exact preset_sets_no_names t E hE x hxE
  · intro hmem
    exact preset_names_have_presets _ hmem hnone

theorem allowed_extensions_no_preset_names_witness :
    ".mp3" ∈ resolve_allowed_extensions ["audio"] ∧ ".mp3" ∉ preset_names :=
  ⟨by decide, allowed_extensions_no_preset_names ["audio"] ".mp3" (by decide)⟩

/-! ### Extension check (C4, C10) -/

theorem should_download_file_iff (E : Finset String) (p : String) :
    should_download_file E p = true ↔ E = ∅ ∨ py_lower (path_suffix p) ∈ E := by
  unfold should_download_file
  split_ifs with h
  · simp [h]
  · simp [h]

/-- Claim C4: `_should_download_file` accepts a path iff the allowed set
is empty (accept all) or the lowercased suffix is a member; with the
`audio` preset expanded, `song.MP3` passes the filter. -/
theorem should_download_file_spec :
    (∀ (E : Finset String) (p : String),
      should_download_file E p = true ↔ E = ∅ ∨ py_lower (path_suffix p) ∈ E) ∧
    should_download_file (resolve_allowed_extensions ["audio"]) "song.MP3" = true :=
  ⟨should_download_file_iff, by decide⟩

theorem has_upper_py_lower (s : String) : has_upper (py_lower s) = false := by
  unfold has_upper py_lower
  rw [List.any_eq_false]
  intro c hc
  rcases List.mem_map.mp hc with ⟨a, _, rfl⟩
  simpa using pyCharLower_not_upper a

/-- Claim C10: with a nonempty allowed set, acceptance requires the
lowercased suffix itself to be a member, and an entry containing an
uppercase ASCII character can never be that member. -/
theorem literal_uppercase_never_matches (E : Finset String) (p : String)
    (hE : E ≠ ∅) (h : should_download_file E p = true) :
    py_lower (path_suffix p) ∈ E ∧
      ∀ e ∈ E, has_upper e = true → py_lower (path_suffix p) ≠ e := by
  have hmem := (should_download_file_iff E p).mp h
  rcases hmem with h0 | hmem
  · exact absurd h0 hE
  refine ⟨hmem, ?_⟩
  intro e _ hup hEq
  rw [← hEq, has_upper_py_lower] at hup
  simp at hup

theorem literal_uppercase_never_matches_witness :
    (({".mp3", ".MP3"} : Finset String) ≠ ∅ ∧
      should_download_file {".mp3", ".MP3"} "a.mp3" = true) ∧
    (py_lower (path_suffix "a.mp3") ∈ ({".mp3", ".MP3"} : Finset String) ∧
      ∀ e ∈ ({".mp3", ".MP3"} : Finset String), has_upper e = true →
        py_lower (path_suffix "a.mp3") ≠ e) :=
  ⟨⟨by decide, by decide⟩,
    literal_uppercase_never_matches {".mp3", ".MP3"} "a.mp3" (by decide) (by decide)⟩

/-! ### Sanitizer (C5) -/

theorem mem_py_replace_char {x : Char} {l : List Char} {c : Char}
    (h : x ∈ py_replace_char l c) : x = '_' ∨ (x ∈ l ∧ x ≠ c) := by
  unfold py_replace_char at h
  rcases List.mem_map.mp h with ⟨a, ha, hax⟩
  by_cases hac : a = c
  · subst hac
    rw [if_pos rfl] at hax
    exact Or.inl hax.symm
  · rw [if_neg hac] at hax
    subst hax
    exact Or.inr ⟨ha, hac⟩

theorem mem_foldl_replace {cs : List Char} : ∀ {l : List Char} {x : Char},
    x ∈ cs.foldl py_replace_char l → x = '_' ∨ (x ∈ l ∧ ∀ c ∈ cs, x ≠ c) := by
  induction cs with
  | nil =>
    intro l x h
    exact Or.inr ⟨h, by simp⟩
  | cons c cs ih =>
    intro l x h
    rw [List.foldl_cons] at h
    rcases ih h with h2 | ⟨hmem, hrest⟩
    · exact Or.inl h2
    · rcases mem_py_replace_char hmem with h2 | ⟨hl, hne⟩
      · exact Or.inl h2
      · refine Or.inr ⟨hl, ?_⟩
        intro d hd
        rcases List.mem_cons.mp hd with rfl | hd2
        · exact hne
        · exact hrest d hd2

theorem mem_remove_invalid {l : List Char} {x : Char} (h : x ∈ remove_invalid l) :
    x ∉ invalid_chars := by
  unfold remove_invalid at h
  rcases mem_foldl_replace h with rfl | ⟨_, hne⟩
  · decide
  · intro hmem
    exact hne x hmem rfl

theorem py_replace_char_of_not_mem {l : List Char} {c : Char} (h : c ∉ l) :
    py_replace_char l c = l := by
  unfold py_replace_char
  have hcongr : ∀ a ∈ l, (if a = c then '_' else a) = a := by
    intro a ha
    rw [if_neg]
    intro hac
    subst hac
    exact h ha
  rw [List.map_congr_left hcongr]
  exact List.map_id' l

theorem remove_invalid_of_clean {l : List Char} (h : ∀ c ∈ invalid_chars, c ∉ l) :
    remove_invalid l = l := by
  unfold remove_invalid
  suffices H : ∀ cs : List Char, (∀ c ∈ cs, c ∉ l) → cs.foldl py_replace_char l = l by
    exact H _ h
  intro cs
  induction cs with
  | nil => intro _; rfl
  | cons c cs ih =>
    intro hcs
    rw [List.foldl_cons, py_replace_char_of_not_mem (hcs c (List.mem_cons_self c cs))]
    exact ih (fun d hd => hcs d (List.mem_cons_of_mem c hd))

theorem mem_py_strip {p : Char → Bool} {l : List Char} {x : Char}
    (h : x ∈ py_strip p l) : x ∈ l := by
  unfold py_strip at h
  have h1 : x ∈ l.dropWhile p :=
    (List.IsPrefix.sublist ( List.rdropWhile_prefix p (l.dropWhile p))).mem h
  exact (List.IsSuffix.sublist (List.dropWhile_suffix p)).mem h1

theorem py_strip_idem (p : Char → Bool) (l : List Char) :
    py_strip p (py_strip p l) = py_strip p l := by
  unfold py_strip
  have hdrop : ((l.dropWhile p).rdropWhile p).dropWhile p = (l.dropWhile p).rdropWhile p := by
    obtain ⟨t, ht⟩ := List.rdropWhile_prefix p (l.dropWhile p)
    cases hB : (l.dropWhile p).rdropWhile p with
    | nil => rfl
    | cons b bs =>
      have hA : l.dropWhile p = b :: (bs ++ t) := by
        rw [← ht, hB]
        simp
      have hne : l.dropWhile p ≠ [] := by
        rw [hA]
        simp
      have hb : p b = false := by
        have hh := List.head_dropWhile_not p l hne
        have hhead : (l.dropWhile p).head hne = b := by simp [hA]
        rw [hhead] at hh
        exact hh
      rw [List.dropWhile_cons, if_neg (by simp [hb])]
  rw [hdrop]
  exact List.rdropWhile_idempotent p (l.dropWhile p)

theorem sanitize_members_clean {x : String} {c : Char}
    (h : c ∈ (sanitize_filename x).data) : c ∉ invalid_chars := by
  simp only [sanitize_filename] at h
  by_cases hs : py_strip strip_space_dot (remove_invalid x.data) = []
  · rw [if_pos hs] at h
    exact (by decide : ∀ y ∈ "untitled".data, y ∉ invalid_chars) c h
  · rw [if_neg hs] at h
    exact mem_remove_invalid (mem_py_strip h)

/-- Claim C5: the filename sanitizer is idempotent. -/
theorem sanitize_filename_idem (x : String) :
    sanitize_filename (sanitize_filename x) = sanitize_filename x := by
  by_cases hs : py_strip strip_space_dot (remove_invalid x.data) = []
  · have hx : sanitize_filename x = "untitled" := by
      simp only [sanitize_filename]
      rw [if_pos hs]
    rw [hx]
    decide
  · have hx : sanitize_filename x = ⟨py_strip strip_space_dot (remove_invalid x.data)⟩ := by
      simp only [sanitize_filename]
      rw [if_neg hs]
    have hclean : remove_invalid (py_strip strip_space_dot (remove_invalid x.data)) =
        py_strip strip_space_dot (remove_invalid x.data) := by
      apply remove_invalid_of_clean
      intro c hc hcS
      exact mem_remove_invalid (mem_py_strip hcS) hc
    rw [hx]
    simp only [sanitize_filename]
    rw [hclean, py_strip_idem, if_neg hs]

/-! ### Collision resolution (C2) -/

theorem string_data_append (a b : String) : (a ++ b).data = a.data ++ b.data := rfl

theorem path_candidate_inj (stem sfx : String) {m n : Nat}
    (h : path_candidate stem sfx m = path_candidate stem sfx n) : m = n := by
  unfold path_candidate py_str_nat at h
  have hd := congrArg String.data h
  simp only [string_data_append, List.append_assoc] at hd
  have h1 := List.append_cancel_left hd
  have h2 := List.append_cancel_left h1
  have h3 := List.append_cancel_right h2
  exact natDigits_inj m n h3

theorem exists_free_candidate (existing : Finset String) (stem sfx : String) :
    ∃ n, 1 ≤ n ∧ n ≤ existing.card + 1 ∧ path_candidate stem sfx n ∉ existing := by
  by_contra hcon
  push_neg at hcon
  have hmap : ∀ i ∈ Finset.Icc 1 (existing.card + 1),
      path_candidate stem sfx i ∈ existing := by
    intro i hi
    rw [Finset.mem_Icc] at hi
    exact hcon i hi.1 hi.2
  have hinj : Set.InjOn (path_candidate stem sfx)
      (Finset.Icc 1 (existing.card + 1)) :=
    fun a _ b _ h => path_candidate_inj stem sfx h
  have hcard := Finset.card_le_card_of_injOn _ hmap hinj
  rw [Nat.card_Icc] at hcard
  omega

theorem resolve_loop_not_mem {existing : Finset String} {stem sfx : String} :
    ∀ {fuel counter : Nat} {cur r : String},
      resolve_loop existing stem sfx fuel counter cur = some r → r ∉ existing := by
  intro fuel
  induction fuel with
  | zero =>
    intro counter cur r h
    cases h
  | succ f ih =>
    intro counter cur r h
    rw [resolve_loop] at h
    split_ifs at h with hmem
    · exact ih h
    · cases h
      exact hmem

theorem resolve_loop_first_fit {existing : Finset String} {stem sfx : String} {N : Nat}
    (hN : path_candidate stem sfx N ∉ existing) :
    ∀ fuel counter cur, counter ≤ N → N + 2 ≤ fuel + counter →
      cur ∈ existing →
      (∀ m, counter ≤ m → m < N → path_candidate stem sfx m ∈ existing) →
      resolve_loop existing stem sfx fuel counter cur =
        some (path_candidate stem sfx N) := by
  intro fuel
  induction fuel with
  | zero =>
    intro counter cur h1 h2 _ _
    omega
  | succ f ih =>
    intro counter cur hcN hfuel hcur hall
    rw [resolve_loop, if_pos hcur]
    by_cases hc : counter = N
    · subst hc
      cases f with
      | zero => omega
      | succ f2 =>
        rw [resolve_loop, if_neg hN]
    · apply ih
      · omega
      · omega
      · exact hall counter le_rfl (by omega)
      · intro m hm1 hm2
        exact hall m (by omega) hm2

/-- Claim C2: the collision resolver of `download_media_file` never
returns an existing path; when the target already exists it returns the
first `stem_N.suffix` (N = 1, 2, ...) that does not exist; and it always
produces a target (the fuel bound suffices). -/
theorem download_target_spec (existing : Finset String) (name : String) :
    (∀ r, download_target existing name = some r → r ∉ existing) ∧
    (∃ r, download_target existing name = some r) ∧
    (name ∈ existing →
      ∃ N, 1 ≤ N ∧
        download_target existing name =
          some (path_candidate (path_stem name) (path_suffix name) N) ∧
        path_candidate (path_stem name) (path_suffix name) N ∉ existing ∧
        ∀ m, 1 ≤ m → m < N →
          path_candidate (path_stem name) (path_suffix name) m ∈ existing) := by
  have main : name ∈ existing →
      ∃ N, 1 ≤ N ∧
        download_target existing name =
          some (path_candidate (path_stem name) (path_suffix name) N) ∧
        path_candidate (path_stem name) (path_suffix name) N ∉ existing ∧
        ∀ m, 1 ≤ m → m < N →
          path_candidate (path_stem name) (path_suffix name) m ∈ existing := by
    intro hname
    obtain ⟨n0, hn1, hn2, hn3⟩ :=
      exists_free_candidate existing (path_stem name) (path_suffix name)
    have hex : ∃ n, 1 ≤ n ∧
        path_candidate (path_stem name) (path_suffix name) n ∉ existing :=
      ⟨n0, hn1, hn3⟩
    have hNspec := Nat.find_spec hex
    have hNle : Nat.find hex ≤ n0 := Nat.find_le ⟨hn1, hn3⟩
    refine ⟨Nat.find hex, hNspec.1, ?_, hNspec.2, ?_⟩
    · unfold download_target
      apply resolve_loop_first_fit hNspec.2
      · exact hNspec.1
      · omega
      · exact hname
      · intro m hm1 hm2
        by_contra hmem
        exact Nat.find_min hex hm2 ⟨hm1, hmem⟩
    · intro m hm1 hm2
      by_contra hmem
      exact Nat.find_min hex hm2 ⟨hm1, hmem⟩
  refine ⟨fun r h => resolve_loop_not_mem h, ?_, main⟩
  by_cases hname : name ∈ existing
  · obtain ⟨N, _, hEq, _, _⟩ := main hname
    exact ⟨_, hEq⟩
  · refine ⟨name, ?_⟩
    unfold download_target
    rw [show existing.card + 2 = (existing.card + 1) + 1 from rfl,
      resolve_loop, if_neg hname]

theorem download_target_spec_witness :
    ("track.mp3" ∈ ({"track.mp3"} : Finset String) ∧
      download_target {"track.mp3"} "track.mp3" = some "track_1.mp3") ∧
    (∀ r, download_target {"track.mp3"} "track.mp3" = some r →
      r ∉ ({"track.mp3"} : Finset String)) :=
  ⟨⟨by decide, by decide⟩, (download_target_spec {"track.mp3"} "track.mp3").1⟩

/-! ### Configuration loading (C6) -/

/-- Claim C6: when the API id variable is unset, the API secret variable
is unset, or the API id value does not parse as an integer,
`load_configuration` exits with a non-zero status, returns no
configuration, and creates no directory. -/
theorem load_configuration_fatal (env : Env)
    (h : env "TELEGRAM_API_ID" = Option.none ∨
      env "TELEGRAM_API_HASH" = Option.none ∨
      ∃ s, env "TELEGRAM_API_ID" = some s ∧ py_parse_int s = Option.none) :
    load_configuration env = ([], Except.error 1) ∧ (1 : Nat) ≠ 0 := by
  refine ⟨?_, by omega⟩
  rcases h with h1 | h1 | ⟨s, hs, hparse⟩
  · simp [load_configuration, h1]
  · simp [load_configuration, h1]
  · simp only [load_configuration, hs, Option.getD_some]
    by_cases hcond : s = "" ∨ (env "TELEGRAM_API_HASH").getD "" = ""
    · rw [if_pos hcond]
    · rw [if_neg hcond, hparse]

theorem load_configuration_fatal_witness :
    ((fun _ => Option.none : Env) "TELEGRAM_API_ID" = Option.none ∨
      (fun _ => Option.none : Env) "TELEGRAM_API_HASH" = Option.none ∨
      ∃ s, (fun _ => Option.none : Env) "TELEGRAM_API_ID" = some s ∧
        py_parse_int s = Option.none) ∧
    (load_configuration (fun _ => Option.none) = ([], Except.error 1) ∧ (1 : Nat) ≠ 0) :=
  ⟨Or.inl rfl, load_configuration_fatal (fun _ => Option.none) (Or.inl rfl)⟩

/-! ### Document filename synthesis (C7) -/

theorem mime_to_ext_nonempty {m e : String} (h : mime_to_ext m = some e) : e ≠ "" := by
  unfold mime_to_ext at h
  split_ifs at h <;> (cases h <;> decide)

/-- Claim C7: for a document message with no attribute declaring a file
name, the processor synthesizes `document_<id>` and appends the
extension mapped from the MIME type by the fixed table; an unmapped MIME
type appends nothing. -/
theorem derive_document_filename_spec (attributes : List (Option String))
    (doc_id : Int) (mime : String)
    (h : find_declared_filename attributes = Option.none) :
    (∀ ext, mime_to_ext mime = some ext →
      derive_document_filename attributes doc_id (some mime) =
        "document_" ++ py_str_int doc_id ++ ext) ∧
    (mime_to_ext mime = Option.none →
      derive_document_filename attributes doc_id (some mime) =
        "document_" ++ py_str_int doc_id) := by
  constructor
  · intro ext hext
    have hm : mime ≠ "" := by
      intro hm
      subst hm
      rw [show mime_to_ext "" = Option.none from by decide] at hext
      cases hext
    have hene : ext ≠ "" := mime_to_ext_nonempty hext
    simp [derive_document_filename, h, hext, hm, hene]
  · intro hext
    by_cases hm : mime = ""
    · simp [derive_document_filename, h, hext, hm]
    · simp [derive_document_filename, h, hext, hm]

theorem derive_document_filename_spec_witness :
    find_declared_filename ([] : List (Option String)) = Option.none ∧
    (derive_document_filename [] 7 (some "audio/flac") =
      "document_" ++ py_str_int 7 ++ ".flac") ∧
    derive_document_filename [] 7 (some "audio/flac") = "document_7.flac" :=
  ⟨rfl,
    (derive_document_filename_spec [] 7 "audio/flac" rfl).1 ".flac" (by decide),
    by decide⟩

/-! ### Sender with no handle: type confusion (C9) -/

/-- Claim C9: for a sender with no username handle, `_user_info` returns
the numeric id itself (an integer value, not a string), and for a
non-empty chat filter not containing the chat id string,
`process_message` raises `AttributeError` (from `user_info.lower()`)
instead of returning false; the error escapes `process_message` because
the chat-filter check runs before the download `try/except`. -/
theorem user_info_int_then_error (S allowed existing : Finset String)
    (download_result : Option String) (downloaded_exists : Bool)
    (msg : TgMessage) (u : TgUser)
    (hsender : msg.sender = some u)
    (hnohandle : u.username = Option.none ∨ u.username = some "")
    (hid : u.id ≠ 0)
    (hS : S ≠ ∅)
    (hchat : py_str_int msg.chat_id ∉ S)
    (hmedia : msg.media.isSome) :
    user_info msg.sender = PyVal.int u.id ∧
    process_message S allowed existing download_result downloaded_exists (some msg) =
      Except.error PyError.attributeError := by
  have hui : user_info msg.sender = PyVal.int u.id := by
    rw [hsender]
    rcases hnohandle with h | h <;> simp [user_info, h]
  refine ⟨hui, ?_⟩
  obtain ⟨m, hm⟩ := Option.isSome_iff_exists.mp hmedia
  have hspc : should_process_chat S msg.chat_id (user_info msg.sender) =
      Except.error PyError.attributeError := by
    rw [hui]
    unfold should_process_chat
    rw [if_neg hS, if_neg hchat]
    have htr : py_truthy (PyVal.int u.id) = true := by simp [py_truthy, hid]
    rw [if_pos htr]
  simp only [process_message, hm, hspc]

theorem user_info_int_then_error_witness :
    py_str_int (1 : Int) ∉ ({"@bob"} : Finset String) ∧
    user_info (some ⟨Option.none, 555⟩) = PyVal.int 555 ∧
    process_message {"@bob"} ∅ ∅ Option.none false
        (some ⟨1, some ⟨Option.none, 555⟩, some TgMedia.other⟩) =
      Except.error PyError.attributeError := by
  have happ := user_info_int_then_error {"@bob"} ∅ ∅ Option.none false
    ⟨1, some ⟨Option.none, 555⟩, some TgMedia.other⟩ ⟨Option.none, 555⟩ rfl
    (Or.inl rfl) (by decide) (by decide) (by decide) rfl
  exact ⟨by decide, happ.1, happ.2⟩

end Telewaves
